import Mathlib

/-!
Verification development for the manim-dsa repository.

The Python sources under manim_dsa are shallowly embedded below.
Numeric quantities (coordinates, widths, radii) are modelled as exact
rationals (the type Q below); the floating point square root used by
the geometry helpers is modelled by an integer square root on numerator
and denominator, which agrees with the exact value on the perfect
square inputs used in the concrete developments below.
Text metrics (the extent of a rendered Text object) belong to the host
rendering engine and are abstracted as a fixed constant where they only
influence caption offsets that no property depends on.
-/

namespace ManimDSA

/-- Fuel driven Euclidean algorithm; the fuel is always sufficient at
the call site in qgcd. Structural recursion keeps kernel reduction
available for concrete evaluation. -/
def qgcdAux : Nat → Nat → Nat → Nat
  | 0, a, _ => a
  | fuel + 1, a, b => if b = 0 then a else qgcdAux fuel b (a % b)

/-- Greatest common divisor with enough fuel for the Euclidean
algorithm to finish. -/
def qgcd (a b : Nat) : Nat := qgcdAux (a + b + 1) a b

/-- Exact rational scalar: numerator and positive denominator, kept
coprime by the smart constructor qnorm. All operations below return
values in this normal form, so structural equality is value
equality. -/
structure Q where
  num : Int
  den : Nat
deriving DecidableEq, Repr

/-- Normalized rational n / d (zero denominator maps to zero, a case
the embedding reaches only where the original code falls back to a
zero vector). -/
def qnorm (n d : Int) : Q :=
  if d = 0 then ⟨0, 1⟩
  else
    let n2 : Int := if d < 0 then -n else n
    let d2 : Nat := d.natAbs
    let g : Nat := qgcd n2.natAbs d2
    ⟨n2 / (g : Int), d2 / g⟩

instance (n : Nat) : OfNat Q n := ⟨⟨(n : Int), 1⟩⟩

instance : Add Q := ⟨fun a b => qnorm (a.num * b.den + b.num * a.den) ((a.den : Int) * b.den)⟩

instance : Neg Q := ⟨fun a => ⟨-a.num, a.den⟩⟩

instance : Sub Q := ⟨fun a b => a + (-b)⟩

instance : Mul Q := ⟨fun a b => qnorm (a.num * b.num) ((a.den : Int) * b.den)⟩

instance : Div Q := ⟨fun a b => qnorm (a.num * b.den) ((a.den : Int) * b.num)⟩

instance : ToString Q := ⟨fun a => toString a.num ++ "/" ++ toString a.den⟩

/-- Absolute value. -/
def qabs (a : Q) : Q := ⟨(a.num.natAbs : Int), a.den⟩

/-- Minimum by cross multiplication (denominators are positive). -/
def qmin (a b : Q) : Q := if a.num * (b.den : Int) ≤ b.num * (a.den : Int) then a else b

/-- Maximum by cross multiplication. -/
def qmax (a b : Q) : Q := if a.num * (b.den : Int) ≤ b.num * (a.den : Int) then b else a

/-- Integer square root by downward search; only applied to small
concrete values. -/
def natSqrtAux : Nat → Nat → Nat
  | 0, _ => 0
  | r + 1, n => if (r + 1) * (r + 1) ≤ n then r + 1 else natSqrtAux r n

/-- Integer square root (largest r with r * r at most n). -/
def natSqrt (n : Nat) : Nat := natSqrtAux n n

/-- Square root on Q, mirroring Rat.sqrt: the integer square roots of
numerator and denominator, exact on perfect squares (negative
numerators clamp to zero). -/
def qsqrt (a : Q) : Q := qnorm ((natSqrt a.num.toNat : Nat) : Int) ((natSqrt a.den : Nat) : Int)

/-- Rational 3D vector, modelling the numpy arrays used for positions and
directions in the library. -/
structure Vec3 where
  x : Q
  y : Q
  z : Q
deriving DecidableEq, Repr

instance : Add Vec3 := ⟨fun a b => ⟨a.x + b.x, a.y + b.y, a.z + b.z⟩⟩

instance : Sub Vec3 := ⟨fun a b => ⟨a.x - b.x, a.y - b.y, a.z - b.z⟩⟩

instance : Neg Vec3 := ⟨fun a => ⟨-a.x, -a.y, -a.z⟩⟩

/-- Scalar multiple of a vector. -/
def smul (q : Q) (v : Vec3) : Vec3 := ⟨q * v.x, q * v.y, q * v.z⟩

/-- Componentwise absolute value, modelling np.abs on a vector. -/
def vabs (v : Vec3) : Vec3 := ⟨qabs v.x, qabs v.y, qabs v.z⟩

/-- Manim constant UP. -/
def UPv : Vec3 := ⟨0, 1, 0⟩

/-- Manim constant DOWN. -/
def DOWNv : Vec3 := ⟨0, -1, 0⟩

/-- Manim constant LEFT. -/
def LEFTv : Vec3 := ⟨-1, 0, 0⟩

/-- Manim constant RIGHT. -/
def RIGHTv : Vec3 := ⟨1, 0, 0⟩

/-- Manim constant ORIGIN. -/
def ORIGINv : Vec3 := ⟨0, 0, 0⟩

/-- Errors raised by the embedded Python code. -/
inductive PyErr where
  | indexErr : PyErr
  | keyErr : PyErr
  | exc : String → PyErr
deriving DecidableEq, Repr

deriving instance DecidableEq for Except

/-- Resolution of a Python index into a list of length n: negative values
count from the end, and the result is none exactly when Python raises
IndexError on element access. -/
def pyIdx (n : Nat) (k : Int) : Option Nat :=
  let j : Int := if k < 0 then k + n else k
  if 0 ≤ j ∧ j < n then some j.toNat else none

/-- Python element access xs[k], with negative index support. -/
def pyGet (xs : List α) (k : Int) : Option α :=
  (pyIdx xs.length k).bind xs.get?

/-- Python element assignment xs[k] = a. Only used on indices that were
already resolved successfully; an unresolvable index leaves the list
unchanged. -/
def pySet (xs : List α) (k : Int) (a : α) : List α :=
  match pyIdx xs.length k with
  | some i => xs.set i a
  | none => xs

/-- Python list.pop(k): removal of the element at a (possibly negative)
index. Only used on indices that were already resolved successfully. -/
def pyEraseIdx (xs : List α) (k : Int) : List α :=
  match pyIdx xs.length k with
  | some i => xs.eraseIdx i
  | none => xs

/-- Start position of the Python slice xs[k:], which clamps instead of
raising: for negative k it is max 0 (n + k), otherwise min k n. -/
def pySliceFrom (n : Nat) (k : Int) : Nat :=
  if k < 0 then (k + n).toNat else min k.toNat n

/-- The list of integers produced by Python range(a, b). -/
def intRange (a b : Int) : List Int :=
  (List.range (b - a).toNat).map (fun n => a + (n : Int))

/-! Embedding of manim_dsa/m_collection (MCollection, MArray, and the
MStack operations that delegate to them). An element is the visual unit
square plus value text; for MArray it optionally carries an index
caption. Object identity of the Python mobjects is modelled by a fresh
natural number id per created element; the list attachedE records the
ids of the element visuals currently attached to the collection visual
group, in attachment order (the hidden template element, container and
label submobjects are not element visuals and are not recorded). -/

/-- Index caption of an MIndexedElement: a text object with its own
center position. -/
structure Caption where
  text : String
  cpos : Vec3
deriving DecidableEq, Repr

/-- One element of a collection: square plus value text (moved as one
unit), with an optional index caption. -/
structure MElem where
  eid : Nat
  value : String
  pos : Vec3
  width : Q
  cap : Option Caption
deriving DecidableEq, Repr

/-- Placeholder element used as the default of list access helpers;
never reachable under the validity hypotheses of the theorems. -/
def dummyMElem : MElem := ⟨0, "", ORIGINv, 0, none⟩

/-- State of an MArray (MCollection plus the MArray index machinery;
a plain MCollection or MStack is the state with indexEnabled false). -/
structure ArrayState where
  elements : List MElem
  attachedE : List Nat
  dirV : Vec3
  margin : Q
  styleW : Q
  hiddenPos : Vec3
  hiddenW : Q
  indexEnabled : Bool
  indexDir : Option Vec3
  capBuff : Q
  nextId : Nat
deriving DecidableEq, Repr

/-- Half extent of a rendered index caption along the caption direction.
Text metrics are owned by the host renderer; the value is a fixed
abstract constant and no verified property depends on it. -/
def textHalf : Q := 1/10

/-- Default manim buffer DEFAULT_MOBJECT_TO_MOBJECT_BUFFER. -/
def defaultBuff : Q := 1/4

/-- Caption center produced by index.next_to(square, direction, buff)
for an axis aligned unit direction: square center displaced along the
direction by half the square width, the buffer, and the caption half
extent. -/
def capNextTo (posQ : Vec3) (w : Q) (d : Vec3) (b : Q) : Vec3 :=
  posQ + smul (w / 2 + b + textHalf) d

/-- MCollection.append together with the MArray caption step:
refreshes the style from the hidden element, creates the element,
places it after the last element (next_to along the growth direction)
or at the hidden square when empty, attaches it, and when indexing is
enabled adds a caption with the 0 based position. -/
def appendElem (s : ArrayState) (v : String) : ArrayState :=
  let s := { s with styleW := s.hiddenW }
  let posN :=
    match s.elements.getLast? with
    | some lastE => lastE.pos + smul (lastE.width / 2 + s.margin + s.styleW / 2) s.dirV
    | none => s.hiddenPos
  let e : MElem := ⟨s.nextId, v, posN, s.styleW, none⟩
  let s := { s with
    elements := s.elements ++ [e]
    attachedE := s.attachedE ++ [e.eid]
    nextId := s.nextId + 1 }
  if s.indexEnabled then
    let d := s.indexDir.getD UPv
    let cap : Caption :=
      ⟨toString (s.elements.length - 1), capNextTo e.pos e.width d s.capBuff⟩
    { s with elements := s.elements.dropLast ++ [{ e with cap := some cap }] }
  else s

/-- Translation of every element (and its caption) and of the hidden
element by a vector, modelling a rigid shift of the whole group. -/
def translateState (s : ArrayState) (t : Vec3) : ArrayState :=
  { s with
    elements := s.elements.map (fun e =>
      { e with pos := e.pos + t, cap := e.cap.map (fun c => { c with cpos := c.cpos + t }) })
    hiddenPos := s.hiddenPos + t }

/-- Bounding box center of the squares of the hidden element and all
elements along one coordinate, given per square center coordinate and
half extent. -/
def bboxCenter1 (cs : List (Q × Q)) : Q :=
  match cs with
  | [] => 0
  | c :: rest =>
    let lo := (rest.map (fun p => p.1 - p.2)).foldl qmin (c.1 - c.2)
    let hi := (rest.map (fun p => p.1 + p.2)).foldl qmax (c.1 + c.2)
    (lo + hi) / 2

/-- Bounding box center of the collection group (hidden square plus
element squares; value texts lie inside their squares and captions do
not exist at construction time). Squares are flat, so the z extent is
zero. -/
def bboxCenter (s : ArrayState) : Vec3 :=
  let boxes := (s.hiddenPos, s.hiddenW) :: s.elements.map (fun e => (e.pos, e.width))
  ⟨bboxCenter1 (boxes.map (fun p => (p.1.x, p.2 / 2))),
   bboxCenter1 (boxes.map (fun p => (p.1.y, p.2 / 2))),
   bboxCenter1 (boxes.map (fun p => (p.1.z, 0)))⟩

/-- MArray construction: the initial values are appended one by one and
the group is then moved to the origin. The style square width defaults
to 1 and the hidden template element starts at the origin. -/
def mkMArray (arr : List String) (d : Vec3) (marginQ : Q) : ArrayState :=
  let init : ArrayState :=
    { elements := []
      attachedE := []
      dirV := d
      margin := marginQ
      styleW := 1
      hiddenPos := ORIGINv
      hiddenW := 1
      indexEnabled := false
      indexDir := none
      capBuff := defaultBuff
      nextId := 0 }
  let s := arr.foldl appendElem init
  translateState s (-(bboxCenter s))

/-- Shift of the elements from a start position on by a vector,
modelling VGroup(*elements[start:]).shift(v); the whole element moves,
caption included. -/
def shiftFrom (es : List MElem) (start : Nat) (v : Vec3) : List MElem :=
  es.take start ++ (es.drop start).map (fun e =>
    { e with pos := e.pos + v, cap := e.cap.map (fun c => { c with cpos := c.cpos + v }) })

/-- Loop body of MArray._set_index_from: for each i in the range, a
copy of the running caption (initially the popped caption) is moved
onto the position of the caption of elements[i] and installed as that
caption, and the replaced caption becomes the new running caption.
Errors (element access or a missing caption attribute) abort the loop,
leaving the partially updated list. -/
def setIndexGo : List Int → List MElem → Caption → (List MElem × Option PyErr)
  | [], es, _ => (es, none)
  | i :: rest, es, old =>
    match pyGet es i with
    | none => (es, some .indexErr)
    | some cur =>
      match cur.cap with
      | none => (es, some (.exc "missing index attribute"))
      | some cc =>
        setIndexGo rest (pySet es i { cur with cap := some { old with cpos := cc.cpos } }) cc

/-- MArray._set_index_from(start, endI, popped): iterates Python
range(start, endI + 1); errors leave the partially updated list. -/
def setIndexFrom (es : List MElem) (start endI : Int) (popped : Caption) :
    List MElem × Option PyErr :=
  setIndexGo (intRange start (endI + 1)) es popped

/-- MArray.pop(index) (MCollection.pop plus the caption renumbering):
no-op on an empty collection; otherwise removes the element at the
(Python) index, detaches its visual, shifts the slice elements[index:]
of the remaining list back by one square width against the growth
direction, and, when indexing is enabled, runs _set_index_from with the
original index argument. The returned flag is the raised exception, if
any; the state carries all mutations applied before the raise. -/
def popElem (s : ArrayState) (k : Int) : ArrayState × Option PyErr :=
  if s.elements.length = 0 then (s, none)
  else
    match pyGet s.elements k with
    | none => (s, some .indexErr)
    | some popped =>
      let s1 := { s with
        elements := pyEraseIdx s.elements k
        attachedE := s.attachedE.erase popped.eid }
      let start := pySliceFrom s1.elements.length k
      let s2 := { s1 with
        elements := shiftFrom s1.elements start (smul (-popped.width) s.dirV) }
      if s2.indexEnabled then
        match popped.cap with
        | none => (s2, some (.exc "missing index attribute"))
        | some pcap =>
          let r := setIndexFrom s2.elements k ((s2.elements.length : Int) - 1) pcap
          ({ s2 with elements := r.1 }, r.2)
      else (s2, none)

/-- Reattachment of a visual to the group: manim add moves an already
present child to the end of the submobject list. -/
def attachOne (att : List Nat) (i : Nat) : List Nat :=
  att.erase i ++ [i]

/-- MArray._visual_swap at resolved positions: the square-and-value
groups of the two elements exchange positions (a copy of the first is
taken before either moves); captions stay in place. -/
def visualSwapL (es : List MElem) (a b : Nat) : List MElem :=
  let ei := es.getD a dummyMElem
  let ej := es.getD b dummyMElem
  (es.set a { ei with pos := ej.pos }).set b { ej with pos := ei.pos }

/-- List part of MArray._logic_swap at resolved positions: the two
slots are exchanged, and when indexing is enabled the caption objects
of the two elements are exchanged back afterwards. -/
def logicSwapL (en : Bool) (es : List MElem) (a b : Nat) : List MElem :=
  let vi := es.getD a dummyMElem
  let vj := es.getD b dummyMElem
  let es2 := (es.set a vj).set b vi
  if en then
    let ca := es2.getD a dummyMElem
    let cb := es2.getD b dummyMElem
    (es2.set a { ca with cap := cb.cap }).set b { cb with cap := ca.cap }
  else es2

/-- Element list effect of one swap call: _visual_swap then
_logic_swap, as in MCollection.swap. -/
def swapCore (en : Bool) (es : List MElem) (a b : Nat) : List MElem :=
  logicSwapL en (visualSwapL es a b) a b

/-- Core of MCollection.swap / MArray.swap at resolved non negative
positions a and b: the element list transformation together with the
scene graph bookkeeping of _logic_swap (both elements are detached
before the slot exchange and reattached afterwards, the element now in
slot a first). -/
def swapResolved (s : ArrayState) (a b : Nat) : ArrayState :=
  let ei := s.elements.getD a dummyMElem
  let ej := s.elements.getD b dummyMElem
  let att := (s.attachedE.erase ei.eid).erase ej.eid
  { s with
    elements := swapCore s.indexEnabled s.elements a b
    attachedE := attachOne (attachOne att ej.eid) ei.eid }

/-- MCollection.swap / MArray.swap with Python index arguments: both
indices are read before any mutation, so unresolvable indices raise
with the state unchanged. -/
def swapElems (s : ArrayState) (i j : Int) : ArrayState × Option PyErr :=
  match pyIdx s.elements.length i, pyIdx s.elements.length j with
  | some a, some b => (swapResolved s a b, none)
  | _, _ => (s, some .indexErr)

/-- The element that ends up in the slot originally holding keep after
one swap: the other element, at the position of keep, and with the
caption of keep when indexing is enabled (captions are exchanged back)
or its own caption otherwise. -/
def swapPick (en : Bool) (keep mov : MElem) : MElem :=
  { mov with pos := keep.pos, cap := if en then keep.cap else mov.cap }

/-- Caption attachment loop of MArray.add_indexes: element at position
i receives the caption str(i) placed next to its square. -/
def addCapsFrom (d : Vec3) (b : Q) : Nat → List MElem → List MElem
  | _, [] => []
  | i, e :: rest =>
    { e with cap := some ⟨toString i, capNextTo e.pos e.width d b⟩ } :: addCapsFrom d b (i + 1) rest

/-- MArray.add_indexes(direction, buff): returns immediately when
indexing is already enabled; raises when the componentwise absolute
value of the direction equals that of the growth direction; otherwise
enables indexing, stores the direction and gives every element its
position caption. -/
def addIndexes (s : ArrayState) (d : Vec3) (b : Q) : Except PyErr ArrayState :=
  if s.indexEnabled then .ok s
  else if vabs s.dirV = vabs d then
    .error (.exc "The direction given is parallel to array growth direction!")
  else
    .ok { s with
      indexEnabled := true
      indexDir := some d
      capBuff := b
      elements := addCapsFrom d b 0 s.elements }

/-- MCollection.__getitem__(key): raises the plain out of bounds
exception when key is at least the length, and otherwise performs
Python element access (so negative keys reach from the end, raising
IndexError only below minus the length). -/
def mGetitem (es : List MElem) (k : Int) : Except PyErr MElem :=
  if (es.length : Int) ≤ k then .error (.exc "Index out of bounds!")
  else
    match pyGet es k with
    | some e => .ok e
    | none => .error .indexErr

/-- Result check for the embedded Except values. -/
def isOkE : Except PyErr α → Bool
  | .ok _ => true
  | .error _ => false

/-- MArray built from the values 1, 2, 3 growing to the right with the
default style (square width 1, margin 0). -/
def demoArr3 : ArrayState := mkMArray ["1", "2", "3"] RIGHTv 0

/-- The same three element array with indexing enabled in the default
upward direction. -/
def demoArr3Idx : ArrayState :=
  (addIndexes demoArr3 UPv defaultBuff).toOption.getD demoArr3

/-- Operations of the C1 sequence language: MArray.append,
MArray.pop (with its Python index argument) and MArray.add_indexes
(a raised configuration error leaves the state unchanged, since the
check precedes every mutation). -/
inductive ColOp where
  | app : String → ColOp
  | pop : Int → ColOp
  | addIdx : Vec3 → Q → ColOp
deriving DecidableEq, Repr

/-- One operation applied to a collection state. -/
def runOp (s : ArrayState) (o : ColOp) : ArrayState :=
  match o with
  | .app v => appendElem s v
  | .pop k => (popElem s k).1
  | .addIdx d b =>
    match addIndexes s d b with
    | .ok t => t
    | .error _ => s

/-- A sequence of operations applied in order. -/
def runOps (s : ArrayState) (ops : List ColOp) : ArrayState :=
  ops.foldl runOp s

/-- The ids of the logical elements, in order. -/
def idsOf (s : ArrayState) : List Nat := s.elements.map MElem.eid

/-- Synchronization invariant: the attached element visuals are exactly
the logical elements (same ids in the same order), ids are pairwise
distinct, and every id is below the fresh id counter. -/
def ColInv (s : ArrayState) : Prop :=
  s.attachedE = idsOf s ∧ (idsOf s).Nodup ∧ ∀ x ∈ idsOf s, x < s.nextId

/-- Amended MCollection.__getitem__ contract: element access fails
exactly when the key lies outside the interval from minus the length to
the length (exclusive); a key of at least the length raises the plain
out of bounds exception, a key below minus the length raises
IndexError, and every other key returns the element at the Python
resolved position. -/
def getitemAmendedSpec (es : List MElem) (k : Int) : Except PyErr MElem :=
  if (es.length : Int) ≤ k then .error (.exc "Index out of bounds!")
  else if k < -(es.length : Int) then .error .indexErr
  else
    match es.get? (if k < 0 then (k + es.length).toNat else k.toNat) with
    | some e => .ok e
    | none => .error .indexErr

/-! Embedding of manim_dsa/m_graph/m_graph.py. Nodes live in the dict
self.nodes, directed edges in self.edges keyed by ordered name pairs.
Python dicts are insertion ordered with in place value replacement,
modelled by association lists with an update that replaces the first
binding. Line mobjects have object identity (add_edge reuses one Line
object for both edges of a bidirectional pair), modelled by a heap of
line segments indexed by fresh ids. -/

/-- A graph node: circle center, circle radius and label text, with a
fresh id standing for Python object identity. -/
structure GNode where
  nid : Nat
  center : Vec3
  radius : Q
  labelText : String
deriving DecidableEq, Repr

/-- Weight label of an edge: text, position, and the stored
label_distance attribute. -/
structure WLabel where
  text : String
  lpos : Vec3
  dist : Q
deriving DecidableEq, Repr

/-- An edge: reference to its line mobject in the heap, arrow tip
presence, and the optional weight label. -/
structure GEdge where
  lineId : Nat
  hasTip : Bool
  wlabel : Option WLabel
deriving DecidableEq, Repr

/-- Geometry of a Line mobject: start and end points. -/
structure LineSeg where
  p1 : Vec3
  p2 : Vec3
deriving DecidableEq, Repr

/-- Lookup in an association list (first binding wins, matching Python
dict semantics under aUpdate). -/
def aLookup [DecidableEq κ] : List (κ × ν) → κ → Option ν
  | [], _ => none
  | (k, v) :: t, q => if k = q then some v else aLookup t q

/-- Python dict assignment d[q] = w: replaces the binding in place when
the key exists, otherwise appends it. -/
def aUpdate [DecidableEq κ] : List (κ × ν) → κ → ν → List (κ × ν)
  | [], q, w => [(q, w)]
  | (k, v) :: t, q, w => if k = q then (q, w) :: t else (k, v) :: aUpdate t q w

/-- State of an MGraph: node map, edge map, line heap and a fresh id
counter for created mobjects. -/
structure GraphState where
  nodes : List (String × GNode)
  edges : List ((String × String) × GEdge)
  lines : List (Nat × LineSeg)
  nextId : Nat
deriving DecidableEq, Repr

/-- MGraph constructed from an empty adjacency input. -/
def emptyGraph : GraphState := ⟨[], [], [], 0⟩

/-- Default node circle radius from GraphStyle (0.33). -/
def nodeRadius : Q := 33/100

/-- Squared Euclidean norm. -/
def vnormSq (v : Vec3) : Q := v.x * v.x + v.y * v.y + v.z * v.z

/-- Euclidean norm, with the floating point square root modelled by
Rat.sqrt (exact on the perfect square norms used concretely below). -/
def vnorm (v : Vec3) : Q := qsqrt (vnormSq v)

/-- Line(p, q).get_unit_vector(): the normalized difference. The manim
normalize helper falls back to the zero vector on zero norm, which the
rational convention of division by zero reproduces. -/
def unitVec (p q : Vec3) : Vec3 := smul (1 / vnorm (q - p)) (q - p)

/-- MGraph.StraightEdge._get_line_start_end: endpoints on the straight
segment between the two centers, each displaced by the node radius, and
the degenerate coincident case replaced by the LEFT and RIGHT
constants. -/
def straightStartEnd (c1 c2 : Vec3) (r1 r2 : Q) : Vec3 × Vec3 :=
  let u := unitVec c1 c2
  let st := c1 + smul r1 u
  let en := c2 - smul r2 u
  if st = en then (LEFTv, RIGHTv) else (st, en)

/-- MGraph.StraightEdge._get_label_position: midpoint of the line
displaced along the clockwise orthogonal of its unit vector by the
label distance. -/
def straightLabelPos (st en : Vec3) (ld : Q) : Vec3 :=
  let u := unitVec st en
  let mean := st + smul (vnorm (en - st) / 2) u
  mean + smul ld ⟨u.y, -u.x, 0⟩

/-- The node object created by MGraph.add_node. -/
def mkGNode (s : GraphState) (name : String) (p : Vec3) : GNode :=
  ⟨s.nextId, p, nodeRadius, name⟩

/-- MGraph.add_node(name, position): creates a fresh node and assigns
it into the node map, silently replacing any existing binding; no code
path raises. -/
def addNode (s : GraphState) (name : String) (p : Vec3) : GraphState :=
  { s with nodes := aUpdate s.nodes name (mkGNode s name p), nextId := s.nextId + 1 }

/-- Python truthiness of the optional weight argument: None and zero
are falsy. -/
def truthyW : Option Q → Bool
  | none => false
  | some x => decide (x ≠ 0)

/-- MGraph.add_edge(node1_name, node2_name, weight, label_distance).
Missing nodes raise KeyError before any mutation. One Line object is
created per call; when the reverse edge exists, the same Line object is
used to build the replacement edge for the reverse key, so its
final geometry is the forward geometry written last, both map entries
reference the same line, the new edge is created without an arrow tip,
and the replacement is also tipless. A truthy weight attaches a label,
repositioned after the reverse branch has mutated the shared line. -/
def addEdge (s : GraphState) (n1 n2 : String) (w : Option Q) (ld : Q) :
    Except PyErr GraphState :=
  match aLookup s.nodes n1, aLookup s.nodes n2 with
  | some node1, some node2 =>
    let reverseExists := (aLookup s.edges (n2, n1)).isSome
    let lid := s.nextId
    let lines0 := aUpdate s.lines lid ⟨LEFTv, RIGHTv⟩
    let se := straightStartEnd node1.center node2.center node1.radius node2.radius
    let lines1 := aUpdate lines0 lid ⟨se.1, se.2⟩
    let e0 : GEdge := ⟨lid, !reverseExists, none⟩
    let e1 :=
      if truthyW w then
        { e0 with wlabel := some ⟨toString (w.getD 0), straightLabelPos se.1 se.2 ld, ld⟩ }
      else e0
    if reverseExists then
      let se2 := straightStartEnd node2.center node1.center node2.radius node1.radius
      let lines2 := aUpdate lines1 lid ⟨se2.1, se2.2⟩
      let e2 :=
        if truthyW w then
          { e1 with wlabel := e1.wlabel.map (fun L => ⟨L.text, straightLabelPos se2.1 se2.2 ld, ld⟩) }
        else e1
      let er : GEdge := ⟨lid, false, none⟩
      .ok { s with
        edges := aUpdate (aUpdate s.edges (n2, n1) er) (n1, n2) e2
        lines := lines2
        nextId := lid + 1 }
    else
      .ok { s with
        edges := aUpdate s.edges (n1, n2) e1
        lines := lines1
        nextId := lid + 1 }
  | _, _ => .error .keyErr

/-- Start point of the line of the edge stored under a key. -/
def edgeStart (s : GraphState) (k : String × String) : Option Vec3 :=
  ((aLookup s.edges k).bind (fun e => aLookup s.lines e.lineId)).map LineSeg.p1

/-- End point of the line of the edge stored under a key. -/
def edgeEnd (s : GraphState) (k : String × String) : Option Vec3 :=
  ((aLookup s.edges k).bind (fun e => aLookup s.lines e.lineId)).map LineSeg.p2

/-- Two node graph used by the concrete edge developments: node A at
the origin and node B two units to its right (distance 2, a perfect
square norm, so the modelled square root is exact). -/
def demoGraph2 : GraphState := addNode (addNode emptyGraph "A" ⟨0, 0, 0⟩) "B" ⟨2, 0, 0⟩

/-- The two node graph after add_edge(A, B) with the default label
distance. -/
def demoGraphAB : GraphState :=
  (addEdge demoGraph2 "A" "B" none (2/10)).toOption.getD demoGraph2

/-- The two node graph after add_edge(A, B) and then add_edge(B, A). -/
def demoGraphABBA : GraphState :=
  (addEdge demoGraphAB "B" "A" none (2/10)).toOption.getD demoGraphAB

/-! List helper lemmas used by the invariant and involution proofs. -/

theorem getD_set_self {α : Type} :
    ∀ (l : List α) (a : Nat) (x d : α), a < l.length → (l.set a x).getD a d = x := by
  intro l
  induction l with
  | nil => intro a x d h; simp at h
  | cons hd tl ih =>
    intro a x d h
    cases a with
    | zero => rfl
    | succ n => exact ih n x d (by simpa using h)

theorem getD_set_other {α : Type} :
    ∀ (l : List α) (a c : Nat) (x d : α), a ≠ c → (l.set a x).getD c d = l.getD c d := by
  intro l
  induction l with
  | nil => intro a c x d _; rfl
  | cons hd tl ih =>
    intro a c x d h
    cases a with
    | zero =>
      cases c with
      | zero => exact absurd rfl h
      | succ m => rfl
    | succ n =>
      cases c with
      | zero => rfl
      | succ m => exact ih n m x d (fun he => h (by rw [he]))

theorem set_getD_self {α : Type} :
    ∀ (l : List α) (a : Nat) (d : α), a < l.length → l.set a (l.getD a d) = l := by
  intro l
  induction l with
  | nil => intro a d h; simp at h
  | cons hd tl ih =>
    intro a d h
    cases a with
    | zero => rfl
    | succ n => exact congrArg (List.cons hd) (ih n d (by simpa using h))

theorem set_of_get?_self {α : Type} :
    ∀ (l : List α) (a : Nat) (v : α), l.get? a = some v → l.set a v = l := by
  intro l
  induction l with
  | nil => intro a v h; simp at h
  | cons hd tl ih =>
    intro a v h
    cases a with
    | zero => simp_all
    | succ n => simp_all [List.set]

theorem map_eraseIdx_comm {α β : Type} (f : α → β) :
    ∀ (l : List α) (i : Nat), (l.eraseIdx i).map f = (l.map f).eraseIdx i := by
  intro l
  induction l with
  | nil => intro i; rfl
  | cons hd tl ih =>
    intro i
    cases i with
    | zero => rfl
    | succ n => simp [List.eraseIdx, ih]

theorem erase_of_nodup_get? :
    ∀ (l : List Nat) (a : Nat) (v : Nat), l.Nodup → l.get? a = some v →
      l.erase v = l.eraseIdx a := by
  intro l
  induction l with
  | nil => intro a v _ h; simp at h
  | cons hd tl ih =>
    intro a v hnd h
    cases a with
    | zero =>
      simp only [List.get?] at h
      injection h with h
      subst h
      simp [List.erase_cons, List.eraseIdx]
    | succ n =>
      simp only [List.get?] at h
      have hv : v ∈ tl := List.get?_mem h
      have hne : hd ≠ v := by
        intro he
        subst he
        exact (List.nodup_cons.mp hnd).1 hv
      have := ih n v (List.nodup_cons.mp hnd).2 h
      simp [List.erase_cons, hne, this, List.eraseIdx]

theorem getD_set_ite {α : Type} (l : List α) (m n : Nat) (x d : α) :
    (l.set m x).getD n d = if m = n ∧ n < l.length then x else l.getD n d := by
  induction l generalizing m n with
  | nil => simp [List.getD]
  | cons hd tl ih =>
    cases m with
    | zero =>
      cases n with
      | zero => simp [List.getD]
      | succ n2 => simp [List.getD]
    | succ m2 =>
      cases n with
      | zero => simp [List.getD]
      | succ n2 => simpa [List.getD, Nat.succ_lt_succ_iff] using ih m2 n2

theorem length_swapCore (en : Bool) (es : List MElem) (a b : Nat) :
    (swapCore en es a b).length = es.length := by
  unfold swapCore logicSwapL visualSwapL
  dsimp only
  by_cases h : en <;> simp [h]

theorem swapCore_closed (en : Bool) (es : List MElem) (a b : Nat)
    (ha : a < es.length) (hb : b < es.length) (hab : a ≠ b) :
    swapCore en es a b =
      (es.set a (swapPick en (es.getD a dummyMElem) (es.getD b dummyMElem))).set b
        (swapPick en (es.getD b dummyMElem) (es.getD a dummyMElem)) := by
  have hba : b ≠ a := fun h => hab h.symm
  unfold swapCore logicSwapL visualSwapL swapPick
  dsimp only
  by_cases hen : en
  · simp only [hen, if_true, getD_set_ite, List.length_set, hab, hba, ha, hb,
      and_true, and_false, if_false, if_true, ite_true, ite_false, false_and,
      true_and, if_pos, eq_self_iff_true]
    apply List.ext_getElem?
    intro n
    by_cases hna : n = a
    · subst hna
      simp [List.getElem?_set, List.length_set, hab, hba, ha, hb]
    · by_cases hnb : n = b
      · subst hnb
        simp [List.getElem?_set, List.length_set, hab, hba, ha, hb]
      · simp [List.getElem?_set, List.length_set, Ne.symm hna, Ne.symm hnb]
  · simp only [hen, if_false, getD_set_ite, List.length_set, hab, hba, ha, hb,
      and_true, and_false, ite_true, ite_false, false_and, true_and,
      Bool.false_eq_true]
    apply List.ext_getElem?
    intro n
    by_cases hna : n = a
    · subst hna
      simp [List.getElem?_set, List.length_set, hab, hba, ha, hb]
    · by_cases hnb : n = b
      · subst hnb
        simp [List.getElem?_set, List.length_set, hab, hba, ha, hb]
      · simp [List.getElem?_set, List.length_set, Ne.symm hna, Ne.symm hnb]

theorem swapCore_self (en : Bool) (es : List MElem) (a : Nat) (ha : a < es.length) :
    swapCore en es a a = es := by
  unfold swapCore logicSwapL visualSwapL
  dsimp only
  by_cases hen : en <;>
    simp only [hen, getD_set_ite, List.length_set, ha, and_true, true_and, if_pos,
      ite_true, ite_false, Bool.false_eq_true, if_false, if_true] <;>
    apply List.ext_getElem? <;>
    intro n <;>
    by_cases hna : n = a
  case pos =>
    subst hna
    simp only [List.getElem?_set, List.length_set, ha, ite_true, if_pos]
    have hg : es.getD n dummyMElem = es[n] := by
      simp [List.getD, List.getElem?_eq_getElem ha]
    rw [hg, List.getElem?_eq_getElem ha]
  case neg =>
    simp [List.getElem?_set, Ne.symm hna]
  case pos =>
    subst hna
    simp only [List.getElem?_set, List.length_set, ha, ite_true, if_pos]
    have hg : es.getD n dummyMElem = es[n] := by
      simp [List.getD, List.getElem?_eq_getElem ha]
    rw [hg, List.getElem?_eq_getElem ha]
  case neg =>
    simp [List.getElem?_set, Ne.symm hna]

theorem swapCore_involution (en : Bool) (es : List MElem) (a b : Nat)
    (ha : a < es.length) (hb : b < es.length) :
    swapCore en (swapCore en es a b) a b = es := by
  by_cases hab : a = b
  · subst hab
    rw [swapCore_self en es a ha, swapCore_self en es a ha]
  · have hba : b ≠ a := fun h => hab h.symm
    have hga : es.getD a dummyMElem = es[a] := by
      simp [List.getD, List.getElem?_eq_getElem ha]
    have hgb : es.getD b dummyMElem = es[b] := by
      simp [List.getD, List.getElem?_eq_getElem hb]
    rw [swapCore_closed en es a b ha hb hab,
      swapCore_closed en _ a b (by simpa using ha) (by simpa using hb) hab]
    simp only [getD_set_ite, List.length_set, ha, hb, hab, hba, and_true, true_and,
      if_pos, ite_true, ite_false, false_and, if_false, if_neg, hga, hgb,
      not_false_iff]
    unfold swapPick
    by_cases hen : en <;>
      simp only [hen, ite_true, ite_false, Bool.false_eq_true, if_true, if_false] <;>
      apply List.ext_getElem? <;>
      intro n <;>
      by_cases hna : n = a
    case pos =>
      subst hna
      simp only [List.getElem?_set, List.length_set, Ne.symm hab, hba, ha, ite_true,
        ite_false, if_pos, if_neg, not_false_iff, List.getElem?_eq_getElem ha]
    case neg =>
      by_cases hnb : n = b
      · subst hnb
        simp only [List.getElem?_set, List.length_set, hab, Ne.symm hba, hb, ite_true,
          ite_false, if_pos, if_neg, not_false_iff, List.getElem?_eq_getElem hb]
      · simp [List.getElem?_set, Ne.symm hna, Ne.symm hnb]
    case pos =>
      subst hna
      simp only [List.getElem?_set, List.length_set, Ne.symm hab, hba, ha, ite_true,
        ite_false, if_pos, if_neg, not_false_iff, List.getElem?_eq_getElem ha]
    case neg =>
      by_cases hnb : n = b
      · subst hnb
        simp only [List.getElem?_set, List.length_set, hab, Ne.symm hba, hb, ite_true,
          ite_false, if_pos, if_neg, not_false_iff, List.getElem?_eq_getElem hb]
      · simp [List.getElem?_set, Ne.symm hna, Ne.symm hnb]

theorem aLookup_aUpdate_self {κ ν : Type} [DecidableEq κ] :
    ∀ (m : List (κ × ν)) (k : κ) (v : ν), aLookup (aUpdate m k v) k = some v := by
  intro m
  induction m with
  | nil => intro k v; simp [aUpdate, aLookup]
  | cons hd tl ih =>
    intro k v
    by_cases h : hd.1 = k
    · simp [aUpdate, aLookup, h]
    · simp only [aUpdate, aLookup]
      rw [if_neg h]
      simp [aLookup, h, ih]

theorem aLookup_aUpdate_other {κ ν : Type} [DecidableEq κ] :
    ∀ (m : List (κ × ν)) (k q : κ) (v : ν), k ≠ q →
      aLookup (aUpdate m k v) q = aLookup m q := by
  intro m
  induction m with
  | nil => intro k q v h; simp [aUpdate, aLookup, h]
  | cons hd tl ih =>
    intro k q v h
    by_cases hk : hd.1 = k
    · simp only [aUpdate]
      rw [if_pos hk]
      simp only [aLookup]
      rw [if_neg h, if_neg (by rw [hk]; exact h)]
    · simp only [aUpdate]
      rw [if_neg hk]
      simp only [aLookup]
      by_cases hq : hd.1 = q
      · rw [if_pos hq, if_pos hq]
      · rw [if_neg hq, if_neg hq, ih k q v h]

theorem aUpdate_length_of_none {κ ν : Type} [DecidableEq κ] :
    ∀ (m : List (κ × ν)) (k : κ) (v : ν), aLookup m k = none →
      (aUpdate m k v).length = m.length + 1 := by
  intro m
  induction m with
  | nil => intro k v _; rfl
  | cons hd tl ih =>
    intro k v h
    simp only [aLookup] at h
    by_cases hk : hd.1 = k
    · rw [if_pos hk] at h; simp at h
    · rw [if_neg hk] at h
      simp only [aUpdate]
      rw [if_neg hk]
      simp [ih k v h]

/-- C4: the claim states that pop(i) moves exactly the elements at
positions strictly after i and leaves the earlier ones in place, for
every accepted removal position including the default. Evaluating the
embedded code on the three element array with the default index -1
shows the contrary: the removed element is the one at position 2, yet
the surviving element at position 1 (value 2) is shifted from x = 0 to
x = -1, because the code slices the already shortened list with the
negative index. -/
theorem C4_pop_default_shifts_element_before_index :
    (popElem demoArr3 (-1)).2 = none ∧
    demoArr3.elements.map (fun e => (e.value, e.pos.x)) =
      [("1", -1), ("2", 0), ("3", 1)] ∧
    (popElem demoArr3 (-1)).1.elements.map (fun e => (e.value, e.pos.x)) =
      [("1", -1), ("2", -1)] := by
  decide

/-- C5: the claim states that after any pop every caption equals the
new position of its element. Evaluating the embedded code on the three
element indexed array with the default index -1 shows the contrary:
the captions read 1 and 0 instead of 0 and 1, because _set_index_from
iterates Python range(-1, length) and starts the caption rotation at
the last remaining element. -/
theorem C5_pop_default_breaks_caption_texts :
    (popElem demoArr3Idx (-1)).2 = none ∧
    (popElem demoArr3Idx (-1)).1.elements.map (fun e => e.cap.map Caption.text) =
      [some "1", some "0"] ∧
    [some "1", some "0"] ≠ (List.range 2).map (fun i => some (toString i)) := by
  decide

theorem pyIdx_lt (n : Nat) (k : Int) (a : Nat) (h : pyIdx n k = some a) : a < n := by
  unfold pyIdx at h
  by_cases hc : 0 ≤ (if k < 0 then k + (n : Int) else k) ∧ (if k < 0 then k + (n : Int) else k) < n
  · rw [if_pos hc] at h
    injection h with h
    omega
  · rw [if_neg hc] at h
    cases h

/-- C6: swap with the same two (Python) indices applied twice restores
the element list completely: logical order, the position of every
square-and-value group, and the index captions (both which element owns
which caption object and where each caption sits). -/
theorem C6_swap_involution (s : ArrayState) (i j : Int) (a b : Nat)
    (ha : pyIdx s.elements.length i = some a) (hb : pyIdx s.elements.length j = some b) :
    (swapElems (swapElems s i j).1 i j).1.elements = s.elements := by
  have ha' := pyIdx_lt _ _ _ ha
  have hb' := pyIdx_lt _ _ _ hb
  have hlen : (swapResolved s a b).elements.length = s.elements.length :=
    length_swapCore _ _ _ _
  have ha2 : pyIdx (swapResolved s a b).elements.length i = some a := by
    rw [hlen]; exact ha
  have hb2 : pyIdx (swapResolved s a b).elements.length j = some b := by
    rw [hlen]; exact hb
  simp only [swapElems, ha, hb, ha2, hb2]
  exact swapCore_involution s.indexEnabled s.elements a b ha' hb'

/-- C6 witness: the involution at the three element indexed array with
the index pair 0 and -1 (the latter resolving to position 2). -/
theorem C6_swap_involution_witness :
    pyIdx demoArr3Idx.elements.length 0 = some 0 ∧
    pyIdx demoArr3Idx.elements.length (-1) = some 2 ∧
    (swapElems (swapElems demoArr3Idx 0 (-1)).1 0 (-1)).1.elements = demoArr3Idx.elements :=
  ⟨by decide, by decide,
    C6_swap_involution demoArr3Idx 0 (-1) 0 2 (by decide) (by decide)⟩

/-- C7 counterexample: on an array whose indexing is already enabled,
add_indexes with a direction parallel to the growth direction returns
the unchanged array without raising, because the idempotence early
return precedes the parallelism check; the claim asserts the error is
raised in every state. -/
theorem C7_counterexample_no_raise_when_enabled :
    vabs demoArr3Idx.dirV = vabs RIGHTv ∧
    addIndexes demoArr3Idx RIGHTv defaultBuff = .ok demoArr3Idx := by
  decide

/-- C7 amended: whenever indexing is not yet enabled, add_indexes with
a direction parallel or anti parallel to the growth direction raises
the configuration error; once indexing is enabled the call is a no-op
and never raises. -/
theorem C7_amended_parallel_raises (s : ArrayState) (d : Vec3) (b : Q)
    (h1 : s.indexEnabled = false) (h2 : vabs s.dirV = vabs d) :
    addIndexes s d b =
      .error (.exc "The direction given is parallel to array growth direction!") := by
  simp [addIndexes, h1, h2]

/-- C7 witness: the amended theorem applied to the fresh three element
array and the anti parallel direction LEFT. -/
theorem C7_amended_witness :
    demoArr3.indexEnabled = false ∧ vabs demoArr3.dirV = vabs LEFTv ∧
    addIndexes demoArr3 LEFTv defaultBuff =
      .error (.exc "The direction given is parallel to array growth direction!") :=
  ⟨by decide, by decide,
    C7_amended_parallel_raises demoArr3 LEFTv defaultBuff (by decide) (by decide)⟩

/-- C8 counterexample: on the three element array, access with key -1
is outside the interval from 0 to the length, yet __getitem__ returns
an element without raising, because the guard only rejects keys at
least the length and Python resolves negative keys from the end. -/
theorem C8_counterexample_negative_key_no_raise :
    ((-1 : Int) < 0 ∨ (demoArr3.elements.length : Int) ≤ (-1 : Int)) ∧
    isOkE (mGetitem demoArr3.elements (-1)) = true := by
  decide

/-- C8 amended: element access fails exactly when the key lies outside
the interval from minus the length to the length; keys at least the
length raise the out of bounds exception, keys below minus the length
raise IndexError, and all other keys (negative ones resolving from the
end) return the element at the Python resolved position. -/
theorem C8_getitem_amended (es : List MElem) (k : Int) :
    mGetitem es k = getitemAmendedSpec es k := by
  unfold mGetitem getitemAmendedSpec pyGet pyIdx
  by_cases h1 : (es.length : Int) ≤ k
  · rw [if_pos h1, if_pos h1]
  · rw [if_neg h1, if_neg h1]
    by_cases h2 : k < -(es.length : Int)
    · rw [if_pos h2]
      have hk0 : k < 0 := by omega
      simp only [if_pos hk0]
      rw [if_neg (by omega : ¬(0 ≤ k + (es.length : Int) ∧ k + (es.length : Int) < (es.length : Int)))]
      rfl
    · rw [if_neg h2]
      by_cases hk0 : k < 0
      · simp only [if_pos hk0]
        rw [if_pos (by omega : 0 ≤ k + (es.length : Int) ∧ k + (es.length : Int) < (es.length : Int))]
        rfl
      · simp only [if_neg hk0]
        rw [if_pos (by omega : 0 ≤ k ∧ k < (es.length : Int))]
        rfl

theorem pyGet_eq {α : Type} (xs : List α) (k : Int) (v : α) (h : pyGet xs k = some v) :
    ∃ a, pyIdx xs.length k = some a ∧ xs.get? a = some v := by
  unfold pyGet at h
  cases hp : pyIdx xs.length k with
  | none => rw [hp] at h; cases h
  | some a => rw [hp] at h; exact ⟨a, rfl, h⟩

theorem map_set_eid :
    ∀ (es : List MElem) (a : Nat) (cur x : MElem), es.get? a = some cur →
      x.eid = cur.eid → (es.set a x).map MElem.eid = es.map MElem.eid := by
  intro es
  induction es with
  | nil => intro a cur x h _; simp at h
  | cons hd tl ih =>
    intro a cur x h he
    cases a with
    | zero =>
      simp only [List.get?] at h
      injection h with h
      subst h
      simp [List.set, he]
    | succ n =>
      simp only [List.get?] at h
      simp [List.set, ih n cur x h he]

theorem map_eid_shiftFrom (es : List MElem) (st : Nat) (v : Vec3) :
    (shiftFrom es st v).map MElem.eid = es.map MElem.eid := by
  unfold shiftFrom
  conv_rhs => rw [← List.take_append_drop st es]
  simp [Function.comp_def]

theorem map_eid_setIndexGo :
    ∀ (r : List Int) (es : List MElem) (c : Caption),
      ((setIndexGo r es c).1).map MElem.eid = es.map MElem.eid := by
  intro r
  induction r with
  | nil => intro es c; rfl
  | cons i rest ih =>
    intro es c
    unfold setIndexGo
    cases hg : pyGet es i with
    | none => simp
    | some cur =>
      dsimp only
      cases hc : cur.cap with
      | none => simp [hc]
      | some cc =>
        simp only [hc]
        rw [ih]
        obtain ⟨a, hpa, hga⟩ := pyGet_eq es i cur hg
        unfold pySet
        rw [hpa]
        exact map_set_eid es a cur _ hga rfl

theorem map_eid_addCapsFrom (d : Vec3) (b : Q) :
    ∀ (i : Nat) (es : List MElem),
      (addCapsFrom d b i es).map MElem.eid = es.map MElem.eid := by
  intro i es
  induction es generalizing i with
  | nil => rfl
  | cons hd tl ih => simp [addCapsFrom, ih]

theorem appendElem_ids (s : ArrayState) (v : String) :
    idsOf (appendElem s v) = idsOf s ++ [s.nextId] ∧
    (appendElem s v).attachedE = s.attachedE ++ [s.nextId] ∧
    (appendElem s v).nextId = s.nextId + 1 := by
  unfold appendElem idsOf
  dsimp only
  by_cases h : s.indexEnabled <;> simp [h, List.dropLast_concat]

theorem ColInv_appendElem (s : ArrayState) (v : String) (h : ColInv s) :
    ColInv (appendElem s v) := by
  obtain ⟨h1, h2, h3⟩ := appendElem_ids s v
  obtain ⟨ha, hn, hb⟩ := h
  refine ⟨?_, ?_, ?_⟩
  · rw [h1, h2, ha]
  · rw [h1]
    refine List.nodup_append.mpr ⟨hn, List.nodup_singleton _, ?_⟩
    intro x hx hy
    simp only [List.mem_singleton] at hy
    subst hy
    exact absurd (hb _ hx) (lt_irrefl _)
  · intro x hx
    rw [h1] at hx
    rw [h3]
    rcases List.mem_append.mp hx with h4 | h4
    · exact Nat.lt_succ_of_lt (hb x h4)
    · simp only [List.mem_singleton] at h4
      subst h4
      exact Nat.lt_succ_self _

theorem ColInv_popElem (s : ArrayState) (k : Int) (h : ColInv s) :
    ColInv (popElem s k).1 := by
  obtain ⟨ha, hn, hb⟩ := h
  unfold popElem
  by_cases h0 : s.elements.length = 0
  · simpa [h0] using ⟨ha, hn, hb⟩
  · rw [if_neg h0]
    cases hg : pyGet s.elements k with
    | none => exact ⟨ha, hn, hb⟩
    | some popped =>
      obtain ⟨a, hpa, hga⟩ := pyGet_eq _ _ _ hg
      have hmapget : (idsOf s).get? a = some popped.eid := by
        unfold idsOf
        rw [List.get?_eq_getElem?, List.getElem?_map, ← List.get?_eq_getElem?, hga]
        rfl
      have hids1 : (pyEraseIdx s.elements k).map MElem.eid = (idsOf s).eraseIdx a := by
        unfold pyEraseIdx
        rw [hpa]
        exact map_eraseIdx_comm _ _ _
      have hatt1 : s.attachedE.erase popped.eid = (idsOf s).eraseIdx a := by
        rw [ha]
        exact erase_of_nodup_get? _ a popped.eid hn hmapget
      have hsub : ∀ x ∈ (idsOf s).eraseIdx a, x < s.nextId := by
        intro x hx
        exact hb x ((List.eraseIdx_sublist _ a).mem hx)
      have hnd : ((idsOf s).eraseIdx a).Nodup := hn.sublist (List.eraseIdx_sublist _ a)
      dsimp only
      by_cases hen : s.indexEnabled
      · rw [if_pos hen]
        cases hcap : popped.cap with
        | none =>
          exact ⟨by simp [idsOf, map_eid_shiftFrom, hids1, hatt1], by
            simpa [idsOf, map_eid_shiftFrom, hids1] using hnd, by
            intro x hx
            exact hsub x (by simpa [idsOf, map_eid_shiftFrom, hids1] using hx)⟩
        | some pcap =>
          refine ⟨?_, ?_, ?_⟩
          · show s.attachedE.erase popped.eid = _
            rw [hatt1]
            unfold idsOf setIndexFrom
            rw [map_eid_setIndexGo, map_eid_shiftFrom, hids1]
            rfl
          · show ((setIndexFrom _ _ _ _).1.map MElem.eid).Nodup
            unfold setIndexFrom
            rw [map_eid_setIndexGo, map_eid_shiftFrom, hids1]
            exact hnd
          · intro x hx
            refine hsub x ?_
            revert hx
            show x ∈ (setIndexFrom _ _ _ _).1.map MElem.eid → _
            unfold setIndexFrom
            rw [map_eid_setIndexGo, map_eid_shiftFrom, hids1]
            exact id
      · rw [if_neg hen]
        exact ⟨by simp [idsOf, map_eid_shiftFrom, hids1, hatt1], by
          simpa [idsOf, map_eid_shiftFrom, hids1] using hnd, by
          intro x hx
          exact hsub x (by simpa [idsOf, map_eid_shiftFrom, hids1] using hx)⟩

theorem ColInv_addIndexes (s : ArrayState) (d : Vec3) (b : Q) (t : ArrayState)
    (h : ColInv s) (hr : addIndexes s d b = .ok t) : ColInv t := by
  obtain ⟨ha, hn, hb⟩ := h
  unfold addIndexes at hr
  by_cases h1 : s.indexEnabled
  · rw [if_pos h1] at hr
    injection hr with hr
    subst hr
    exact ⟨ha, hn, hb⟩
  · rw [if_neg h1] at hr
    by_cases h2 : vabs s.dirV = vabs d
    · rw [if_pos h2] at hr
      cases hr
    · rw [if_neg h2] at hr
      injection hr with hr
      subst hr
      refine ⟨?_, ?_, ?_⟩
      · show s.attachedE = _
        rw [ha]
        unfold idsOf
        rw [map_eid_addCapsFrom]
      · show ((addCapsFrom d b 0 s.elements).map MElem.eid).Nodup
        rw [map_eid_addCapsFrom]
        exact hn
      · intro x hx
        refine hb x ?_
        revert hx
        show x ∈ (addCapsFrom d b 0 s.elements).map MElem.eid → _
        rw [map_eid_addCapsFrom]
        exact id

theorem ColInv_runOp (s : ArrayState) (o : ColOp) (h : ColInv s) :
    ColInv (runOp s o) := by
  cases o with
  | app v => exact ColInv_appendElem s v h
  | pop k => exact ColInv_popElem s k h
  | addIdx d b =>
    show ColInv (match addIndexes s d b with
      | Except.ok t => t
      | Except.error _ => s)
    cases hr : addIndexes s d b with
    | ok t => exact ColInv_addIndexes s d b t h hr
    | error e => exact h

theorem ColInv_runOps :
    ∀ (ops : List ColOp) (s : ArrayState), ColInv s → ColInv (runOps s ops) := by
  intro ops
  induction ops with
  | nil => intro s h; exact h
  | cons o rest ih =>
    intro s h
    exact ih (runOp s o) (ColInv_runOp s o h)

theorem ColInv_translate (s : ArrayState) (t : Vec3) (h : ColInv s) :
    ColInv (translateState s t) := by
  obtain ⟨ha, hn, hb⟩ := h
  have hids : idsOf (translateState s t) = idsOf s := by
    simp [translateState, idsOf, Function.comp_def]
  exact ⟨by rw [hids]; exact ha, by rw [hids]; exact hn, by
    intro x hx
    rw [hids] at hx
    exact hb x hx⟩

theorem ColInv_mkMArray (arr : List String) (d : Vec3) (m : Q) :
    ColInv (mkMArray arr d m) := by
  unfold mkMArray
  dsimp only
  apply ColInv_translate
  have : ∀ (l : List String) (s : ArrayState), ColInv s → ColInv (l.foldl appendElem s) := by
    intro l
    induction l with
    | nil => intro s h; exact h
    | cons v rest ih => intro s h; exact ih (appendElem s v) (ColInv_appendElem s v h)
  exact this arr _ ⟨rfl, List.nodup_nil, by intro x hx; cases hx⟩

/-- C1: for every sequence of append, pop and add_indexes operations
applied to a collection built by the constructor, the length of the
logical element list equals the number of element visuals attached to
the visual group: append attaches exactly the one element it appends
and pop detaches exactly the one element it removes, also on the
exceptional paths, so the stronger invariant that the attached ids are
exactly the logical element ids in order is preserved throughout. -/
theorem C1_length_eq_attached (ops : List ColOp) (arr : List String) (d : Vec3) (m : Q) :
    (runOps (mkMArray arr d m) ops).elements.length =
      (runOps (mkMArray arr d m) ops).attachedE.length := by
  have h := ColInv_runOps ops (mkMArray arr d m) (ColInv_mkMArray arr d m)
  rw [h.1]
  simp [idsOf]

theorem aUpdate_length_of_some {κ ν : Type} [DecidableEq κ] :
    ∀ (m : List (κ × ν)) (k : κ) (v w : ν), aLookup m k = some w →
      (aUpdate m k v).length = m.length := by
  intro m
  induction m with
  | nil => intro k v w h; cases h
  | cons hd tl ih =>
    intro k v w h
    simp only [aLookup] at h
    by_cases hk : hd.1 = k
    · simp only [aUpdate]
      rw [if_pos hk]
      rfl
    · rw [if_neg hk] at h
      simp only [aUpdate]
      rw [if_neg hk]
      simp [ih k v w h]

theorem addEdge_fresh_fields (s : GraphState) (A B : String) (w : Option Q) (ld : Q)
    (nA nB : GNode) (h1 : aLookup s.nodes A = some nA) (h2 : aLookup s.nodes B = some nB)
    (h4 : aLookup s.edges (B, A) = none) :
    ∃ t e, addEdge s A B w ld = .ok t ∧
      t.nodes = s.nodes ∧
      t.edges = aUpdate s.edges (A, B) e ∧
      t.nextId = s.nextId + 1 ∧
      e.hasTip = true ∧ e.lineId = s.nextId ∧
      (truthyW w = false → e.wlabel = none) := by
  unfold addEdge
  rw [h1, h2, h4]
  dsimp only [Option.isSome]
  by_cases ht : truthyW w
  · simp only [ht, if_true, Bool.not_false, ite_true]
    exact ⟨_, _, rfl, rfl, rfl, rfl, rfl, rfl, fun hc => Bool.noConfusion hc⟩
  · simp only [ht, if_false, Bool.not_false, ite_false, Bool.false_eq_true]
    exact ⟨_, _, rfl, rfl, rfl, rfl, rfl, rfl, fun _ => rfl⟩

theorem addEdge_reverse_fields (s : GraphState) (A B : String) (w : Option Q) (ld : Q)
    (nA nB : GNode) (eR : GEdge)
    (h1 : aLookup s.nodes A = some nA) (h2 : aLookup s.nodes B = some nB)
    (h4 : aLookup s.edges (B, A) = some eR) :
    ∃ t e1 e2, addEdge s A B w ld = .ok t ∧
      t.nodes = s.nodes ∧
      t.edges = aUpdate (aUpdate s.edges (B, A) e2) (A, B) e1 ∧
      t.nextId = s.nextId + 1 ∧
      e1.hasTip = false ∧ e2.hasTip = false ∧
      e1.lineId = s.nextId ∧ e2.lineId = s.nextId ∧
      (truthyW w = false → e1.wlabel = none) ∧ e2.wlabel = none := by
  unfold addEdge
  rw [h1, h2, h4]
  dsimp only [Option.isSome]
  by_cases ht : truthyW w
  · simp only [ht, if_true, Bool.not_true, ite_true]
    exact ⟨_, _, _, rfl, rfl, rfl, rfl, rfl, rfl, rfl, rfl, fun hc => Bool.noConfusion hc, rfl⟩
  · simp only [ht, if_false, Bool.not_true, ite_false, Bool.false_eq_true]
    exact ⟨_, _, _, rfl, rfl, rfl, rfl, rfl, rfl, rfl, rfl, fun _ => rfl, rfl⟩

/-- C2 counterexample: after add_edge(A, B) and add_edge(B, A) on the
two node graph there are exactly two edge entries, but their geometry
coincides completely: both entries reference the same Line object, so
the computed start points are equal and the end points are equal,
refuting the claimed non overlap (mutually offset parallel lines). -/
theorem C2_counterexample_edges_overlap :
    demoGraphABBA.edges.length = 2 ∧
    (edgeStart demoGraphABBA ("A", "B")).isSome = true ∧
    edgeStart demoGraphABBA ("A", "B") = edgeStart demoGraphABBA ("B", "A") ∧
    edgeEnd demoGraphABBA ("A", "B") = edgeEnd demoGraphABBA ("B", "A") := by
  decide

/-- C2 amended: add_edge(A, B) followed by add_edge(B, A) on distinct
existing nodes yields exactly two edge entries keyed (A, B) and (B, A),
but the two entries share one Line object, so their computed start
points are equal and their end points are equal: the edges overlap
completely instead of being rendered as offset parallel lines. -/
theorem C2_amended_two_entries_share_line (s : GraphState) (A B : String)
    (w1 w2 : Option Q) (l1 l2 : Q) (nA nB : GNode)
    (h1 : aLookup s.nodes A = some nA) (h2 : aLookup s.nodes B = some nB)
    (h3 : aLookup s.edges (A, B) = none) (h4 : aLookup s.edges (B, A) = none)
    (h5 : A ≠ B) :
    ∃ s1 s2, addEdge s A B w1 l1 = .ok s1 ∧ addEdge s1 B A w2 l2 = .ok s2 ∧
      s2.edges.length = s.edges.length + 2 ∧
      (∃ eAB eBA, aLookup s2.edges (A, B) = some eAB ∧
        aLookup s2.edges (B, A) = some eBA ∧ eAB.lineId = eBA.lineId) ∧
      edgeStart s2 (A, B) = edgeStart s2 (B, A) ∧
      edgeEnd s2 (A, B) = edgeEnd s2 (B, A) := by
  have hne : ((A, B) : String × String) ≠ (B, A) := fun hq => h5 (congrArg Prod.fst hq)
  have hne2 : ((B, A) : String × String) ≠ (A, B) := fun hq => hne hq.symm
  obtain ⟨s1, e0, he1, hn1, hed1, _, _, hl0, _⟩ :=
    addEdge_fresh_fields s A B w1 l1 nA nB h1 h2 h4
  have h1b : aLookup s1.nodes B = some nB := by rw [hn1]; exact h2
  have h2b : aLookup s1.nodes A = some nA := by rw [hn1]; exact h1
  have hAB : aLookup s1.edges (A, B) = some e0 := by
    rw [hed1]; exact aLookup_aUpdate_self _ _ _
  obtain ⟨s2, f1, f2, he2, _, hed2, _, _, _, hl1, hl2, _, _⟩ :=
    addEdge_reverse_fields s1 B A w2 l2 nB nA e0 h1b h2b hAB
  have hlookAB : aLookup s2.edges (A, B) = some f2 := by
    rw [hed2, aLookup_aUpdate_other _ _ _ _ hne2, aLookup_aUpdate_self]
  have hlookBA : aLookup s2.edges (B, A) = some f1 := by
    rw [hed2]; exact aLookup_aUpdate_self _ _ _
  refine ⟨s1, s2, he1, he2, ?_, ⟨f2, f1, hlookAB, hlookBA, by rw [hl2, hl1]⟩, ?_, ?_⟩
  · have hlen1 : s1.edges.length = s.edges.length + 1 := by
      rw [hed1]; exact aUpdate_length_of_none _ _ _ h3
    have hBAmid : aLookup (aUpdate s1.edges (A, B) f2) (B, A) = none := by
      rw [aLookup_aUpdate_other _ _ _ _ hne, hed1,
        aLookup_aUpdate_other _ _ _ _ hne, h4]
    rw [hed2, aUpdate_length_of_none _ _ _ hBAmid,
      aUpdate_length_of_some _ _ _ e0 hAB, hlen1]
  · unfold edgeStart
    rw [hlookAB, hlookBA]
    simp only [Option.some_bind]
    rw [hl2, hl1]
  · unfold edgeEnd
    rw [hlookAB, hlookBA]
    simp only [Option.some_bind]
    rw [hl2, hl1]

/-- C2 witness: the amended theorem at the concrete two node graph with
unweighted edges and the default label distance. -/
theorem C2_amended_witness :
    aLookup demoGraph2.nodes "A" = some ⟨0, ⟨0, 0, 0⟩, nodeRadius, "A"⟩ ∧
    aLookup demoGraph2.nodes "B" = some ⟨1, ⟨2, 0, 0⟩, nodeRadius, "B"⟩ ∧
    aLookup demoGraph2.edges ("A", "B") = none ∧
    aLookup demoGraph2.edges ("B", "A") = none ∧
    ("A" : String) ≠ "B" ∧
    (∃ s1 s2, addEdge demoGraph2 "A" "B" none (2/10) = .ok s1 ∧
      addEdge s1 "B" "A" none (2/10) = .ok s2 ∧
      s2.edges.length = demoGraph2.edges.length + 2 ∧
      (∃ eAB eBA, aLookup s2.edges ("A", "B") = some eAB ∧
        aLookup s2.edges ("B", "A") = some eBA ∧ eAB.lineId = eBA.lineId) ∧
      edgeStart s2 ("A", "B") = edgeStart s2 ("B", "A") ∧
      edgeEnd s2 ("A", "B") = edgeEnd s2 ("B", "A")) :=
  ⟨by decide, by decide, by decide, by decide, by decide,
    C2_amended_two_entries_share_line demoGraph2 "A" "B" none none (2/10) (2/10)
      ⟨0, ⟨0, 0, 0⟩, nodeRadius, "A"⟩ ⟨1, ⟨2, 0, 0⟩, nodeRadius, "B"⟩
      (by decide) (by decide) (by decide) (by decide) (by decide)⟩

/-- C3 counterexample: after add_edge(A, B) the stored (A, B) edge has
an arrow tip, but the subsequent add_edge(B, A) replaces it with a
tipless edge, so the first inserted edge does not keep its arrowhead as
the claim states. -/
theorem C3_counterexample_first_edge_loses_tip :
    (aLookup demoGraphAB.edges ("A", "B")).map GEdge.hasTip = some true ∧
    (aLookup demoGraphABBA.edges ("A", "B")).map GEdge.hasTip = some false := by
  decide

/-- C3 amended: an edge receives an arrow tip exactly when the opposite
direction is absent at its insertion, but inserting the second
direction also rebuilds the first edge without its tip: after
add_edge(A, B) the (A, B) entry has a tip, and after the following
add_edge(B, A) both the (A, B) and the (B, A) entries are tipless. -/
theorem C3_amended_both_tips_suppressed (s : GraphState) (A B : String)
    (w1 w2 : Option Q) (l1 l2 : Q) (nA nB : GNode)
    (h1 : aLookup s.nodes A = some nA) (h2 : aLookup s.nodes B = some nB)
    (h4 : aLookup s.edges (B, A) = none) (h5 : A ≠ B) :
    ∃ s1 s2, addEdge s A B w1 l1 = .ok s1 ∧ addEdge s1 B A w2 l2 = .ok s2 ∧
      (∃ e, aLookup s1.edges (A, B) = some e ∧ e.hasTip = true) ∧
      (∃ eAB, aLookup s2.edges (A, B) = some eAB ∧ eAB.hasTip = false) ∧
      (∃ eBA, aLookup s2.edges (B, A) = some eBA ∧ eBA.hasTip = false) := by
  have hne : ((A, B) : String × String) ≠ (B, A) := fun hq => h5 (congrArg Prod.fst hq)
  have hne2 : ((B, A) : String × String) ≠ (A, B) := fun hq => hne hq.symm
  obtain ⟨s1, e0, he1, hn1, hed1, _, htip0, _, _⟩ :=
    addEdge_fresh_fields s A B w1 l1 nA nB h1 h2 h4
  have h1b : aLookup s1.nodes B = some nB := by rw [hn1]; exact h2
  have h2b : aLookup s1.nodes A = some nA := by rw [hn1]; exact h1
  have hAB : aLookup s1.edges (A, B) = some e0 := by
    rw [hed1]; exact aLookup_aUpdate_self _ _ _
  obtain ⟨s2, f1, f2, he2, _, hed2, _, ht1, ht2, _, _, _, _⟩ :=
    addEdge_reverse_fields s1 B A w2 l2 nB nA e0 h1b h2b hAB
  refine ⟨s1, s2, he1, he2, ⟨e0, hAB, htip0⟩, ⟨f2, ?_, ht2⟩, ⟨f1, ?_, ht1⟩⟩
  · rw [hed2, aLookup_aUpdate_other _ _ _ _ hne2, aLookup_aUpdate_self]
  · rw [hed2]; exact aLookup_aUpdate_self _ _ _

/-- C3 witness: the amended theorem at the concrete two node graph. -/
theorem C3_amended_witness :
    aLookup demoGraph2.nodes "A" = some ⟨0, ⟨0, 0, 0⟩, nodeRadius, "A"⟩ ∧
    aLookup demoGraph2.nodes "B" = some ⟨1, ⟨2, 0, 0⟩, nodeRadius, "B"⟩ ∧
    aLookup demoGraph2.edges ("B", "A") = none ∧
    ("A" : String) ≠ "B" ∧
    (∃ s1 s2, addEdge demoGraph2 "A" "B" none (2/10) = .ok s1 ∧
      addEdge s1 "B" "A" none (2/10) = .ok s2 ∧
      (∃ e, aLookup s1.edges ("A", "B") = some e ∧ e.hasTip = true) ∧
      (∃ eAB, aLookup s2.edges ("A", "B") = some eAB ∧ eAB.hasTip = false) ∧
      (∃ eBA, aLookup s2.edges ("B", "A") = some eBA ∧ eBA.hasTip = false)) :=
  ⟨by decide, by decide, by decide, by decide,
    C3_amended_both_tips_suppressed demoGraph2 "A" "B" none none (2/10) (2/10)
      ⟨0, ⟨0, 0, 0⟩, nodeRadius, "A"⟩ ⟨1, ⟨2, 0, 0⟩, nodeRadius, "B"⟩
      (by decide) (by decide) (by decide) (by decide)⟩

/-- C9: add_edge with weight 0 produces exactly the same state as
add_edge without a weight (the truthiness test rejects zero), and in
particular the stored edge carries no weight label, so is_weighted
returns False on it. -/
theorem C9_zero_weight_behaves_as_no_weight (s : GraphState) (A B : String) (ld : Q)
    (nA nB : GNode) (h1 : aLookup s.nodes A = some nA)
    (h2 : aLookup s.nodes B = some nB) :
    addEdge s A B (some 0) ld = addEdge s A B none ld ∧
    ∀ t, addEdge s A B (some 0) ld = .ok t →
      ∃ e, aLookup t.edges (A, B) = some e ∧ e.wlabel = none := by
  constructor
  · rfl
  · intro t ht
    cases hr : aLookup s.edges (B, A) with
    | none =>
      obtain ⟨t2, e, he, _, hed, _, _, _, hw⟩ :=
        addEdge_fresh_fields s A B (some 0) ld nA nB h1 h2 hr
      rw [he] at ht
      injection ht with ht
      subst ht
      exact ⟨e, by rw [hed]; exact aLookup_aUpdate_self _ _ _, hw rfl⟩
    | some eR =>
      obtain ⟨t2, e1, e2, he, _, hed, _, _, _, _, _, hw1, _⟩ :=
        addEdge_reverse_fields s A B (some 0) ld nA nB eR h1 h2 hr
      rw [he] at ht
      injection ht with ht
      subst ht
      exact ⟨e1, by rw [hed]; exact aLookup_aUpdate_self _ _ _, hw1 rfl⟩

/-- C9 witness: the theorem at the concrete two node graph. -/
theorem C9_zero_weight_witness :
    aLookup demoGraph2.nodes "A" = some ⟨0, ⟨0, 0, 0⟩, nodeRadius, "A"⟩ ∧
    aLookup demoGraph2.nodes "B" = some ⟨1, ⟨2, 0, 0⟩, nodeRadius, "B"⟩ ∧
    (addEdge demoGraph2 "A" "B" (some 0) (2/10) = addEdge demoGraph2 "A" "B" none (2/10) ∧
      ∀ t, addEdge demoGraph2 "A" "B" (some 0) (2/10) = .ok t →
        ∃ e, aLookup t.edges ("A", "B") = some e ∧ e.wlabel = none) :=
  ⟨by decide, by decide,
    C9_zero_weight_behaves_as_no_weight demoGraph2 "A" "B" (2/10)
      ⟨0, ⟨0, 0, 0⟩, nodeRadius, "A"⟩ ⟨1, ⟨2, 0, 0⟩, nodeRadius, "B"⟩
      (by decide) (by decide)⟩

/-- C10: add_node with an already used name raises no error (the
function is total), silently replaces the node map binding for that
name with the freshly created node (which differs from the stored one,
its id being the current fresh counter), and leaves the binding of
every other name unchanged, so the previous node is no longer reachable
under its name. -/
theorem C10_add_node_silent_replace (s : GraphState) (name : String) (p : Vec3)
    (old : GNode) (h1 : aLookup s.nodes name = some old) (h2 : old.nid < s.nextId) :
    aLookup (addNode s name p).nodes name = some (mkGNode s name p) ∧
    aLookup (addNode s name p).nodes name ≠ some old ∧
    (∀ k, k ≠ name → aLookup (addNode s name p).nodes k = aLookup s.nodes k) := by
  refine ⟨aLookup_aUpdate_self _ _ _, ?_, ?_⟩
  · intro heq
    have hmk : some (mkGNode s name p) = some old :=
      (aLookup_aUpdate_self s.nodes name (mkGNode s name p)).symm.trans heq
    injection hmk with hmk
    have : s.nextId = old.nid := congrArg GNode.nid hmk
    rw [← this] at h2
    exact absurd h2 (lt_irrefl _)
  · intro k hk
    exact aLookup_aUpdate_other _ _ _ _ (fun he => hk he.symm)

/-- C10 witness: replacing the node A of a single node graph. -/
theorem C10_add_node_witness :
    aLookup (addNode emptyGraph "A" ORIGINv).nodes "A" =
      some ⟨0, ORIGINv, nodeRadius, "A"⟩ ∧
    (⟨0, ORIGINv, nodeRadius, "A"⟩ : GNode).nid < (addNode emptyGraph "A" ORIGINv).nextId ∧
    (aLookup (addNode (addNode emptyGraph "A" ORIGINv) "A" ⟨5, 0, 0⟩).nodes "A" =
        some (mkGNode (addNode emptyGraph "A" ORIGINv) "A" ⟨5, 0, 0⟩) ∧
      aLookup (addNode (addNode emptyGraph "A" ORIGINv) "A" ⟨5, 0, 0⟩).nodes "A" ≠
        some ⟨0, ORIGINv, nodeRadius, "A"⟩ ∧
      (∀ k, k ≠ "A" →
        aLookup (addNode (addNode emptyGraph "A" ORIGINv) "A" ⟨5, 0, 0⟩).nodes k =
          aLookup (addNode emptyGraph "A" ORIGINv).nodes k)) :=
  ⟨by decide, by decide,
    C10_add_node_silent_replace (addNode emptyGraph "A" ORIGINv) "A" ⟨5, 0, 0⟩
      ⟨0, ORIGINv, nodeRadius, "A"⟩ (by decide) (by decide)⟩

end ManimDSA
